/-
Verification of the nself ingestion pipeline against its specification.

Shallow embedding of the Python sources:
  * src/templates/services/py/langflow/scripts/ragflow_to_graphiti.py
    (find_ragflow_index, extract_chunks, transform_to_messages, send_to_graphiti)
  * src/services/kg/graphrag-api/worker.py (sync_ragflow_to_kg)
  * src/templates/services/py/graphiti/server/graph_service/utils/model_factory.py
    (ModelFactory)
  * src/templates/services/py/graphiti/server/graph_service/routers/ingest.py
    (edge_type_map parsing in add_messages)

Conventions: Python dicts with fixed keys become structures; optional keys
become `Option` fields with `Option.getD` for `.get(key, default)`; Python
strings are Lean `String` (char lists where character-level reasoning is
needed); remote calls (Elasticsearch paging, HTTP posts) become explicit
inputs: the pages the backend serves and a boolean outcome per delivery
call.  `sys.exit` / raised exceptions become `Except` errors or flags.
-/
import Mathlib

/-! ## Data model: a RAGFlow chunk as consumed by the bridge script

The script reads `chunk.get('_source', {})` and then `.get` on the fields
`content_with_weight`, `content`, `doc_id` (the worker additionally reads
`docnm_kwd`).  A missing `_source` behaves as the empty dict. -/

structure RagSource where
  content_with_weight : Option String
  content : Option String
  doc_id : Option String
  docnm_kwd : Option String
  deriving DecidableEq

def emptySource : RagSource :=
  { content_with_weight := none, content := none, doc_id := none, docnm_kwd := none }

structure Chunk where
  source : Option RagSource
  deriving DecidableEq

/-- Graphiti message dict built by `transform_to_messages`. -/
structure Message where
  uuid : String
  content : String
  role_type : String
  role : String
  name : String
  timestamp : String
  source_description : String
  deriving DecidableEq

/-- Python `a or b` on strings: `b` when `a` is empty (falsy), else `a`. -/
def pyOr (a b : String) : String :=
  if a = "" then b else a

/-- Python `source.get('content_with_weight', '') or source.get('content', '')`. -/
def chunkContent (c : Chunk) : String :=
  pyOr (((c.source.getD emptySource).content_with_weight).getD "")
    (((c.source.getD emptySource).content).getD "")

/-- Python `source.get('doc_id', 'unknown')`, used when the id is built. -/
def chunkDocId (c : Chunk) : String :=
  ((c.source.getD emptySource).doc_id).getD "unknown"

/-- Body of the `for i, chunk in enumerate(chunks)` loop of
`transform_to_messages`: skip the chunk when its content is empty, otherwise
build one message.  `now` stands for the wall clock read
(`datetime.utcnow().isoformat()`) at loop position `i`. -/
def transformOne (now : Nat → String) (i : Nat) (c : Chunk) : Option Message :=
  let content := chunkContent c
  if content = "" then none
  else
    let doc_id := chunkDocId c
    some { uuid := "ragflow_chunk_" ++ doc_id ++ "_" ++ toString i
         , content := content
         , role_type := "system"
         , role := "RAGFlow RAPTOR Chunk"
         , name := "Chunk " ++ toString (i + 1)
         , timestamp := now i ++ "Z"
         , source_description := "RAGFlow Document " ++ doc_id }

/-- Function `transform_to_messages` of ragflow_to_graphiti.py. -/
def transform_to_messages (now : Nat → String) (chunks : List Chunk) : List Message :=
  chunks.enum.filterMap (fun p => transformOne now p.1 p.2)

theorem transformOne_eq_some_iff (now : Nat → String) (i : Nat) (c : Chunk) :
    (transformOne now i c).isSome = true ↔ chunkContent c ≠ "" := by
  unfold transformOne
  by_cases h : chunkContent c = "" <;> simp [h]

theorem transformOne_uuid (now : Nat → String) (i : Nat) (c : Chunk) (m : Message)
    (h : transformOne now i c = some m) :
    m.uuid = "ragflow_chunk_" ++ chunkDocId c ++ "_" ++ toString i := by
  unfold transformOne at h
  by_cases hc : chunkContent c = ""
  · simp [hc] at h
  · simp [hc] at h
    subst h
    rfl

/-- C3: every record whose effective content (primary field with fallback)
is non-empty yields exactly one message, and every record whose both content
fields are empty yields none: the number of messages equals the number of
records with non-empty effective content. -/
theorem C3_transform_one_message_per_nonempty_record
    (now : Nat → String) (chunks : List Chunk) :
    (transform_to_messages now chunks).length
      = (chunks.filter (fun c => chunkContent c ≠ "")).length := by
  unfold transform_to_messages
  have key : ∀ (l : List Chunk) (n : Nat),
      ((List.enumFrom n l).filterMap (fun p => transformOne now p.1 p.2)).length
        = (l.filter (fun c => chunkContent c ≠ "")).length := by
    intro l
    induction l with
    | nil => intro n; rfl
    | cons c t ih =>
      intro n
      by_cases h : chunkContent c = ""
      · have hnone : transformOne now n c = none := by
          unfold transformOne; simp [h]
        simp [List.enumFrom, List.filterMap_cons, hnone, List.filter_cons, h, ih]
      · have hsome : (transformOne now n c).isSome = true :=
          (transformOne_eq_some_iff now n c).mpr h
        rcases Option.isSome_iff_exists.mp hsome with ⟨m, hm⟩
        simp [List.enumFrom, List.filterMap_cons, hm, List.filter_cons, h, ih]
  have : chunks.enum = List.enumFrom 0 chunks := rfl
  rw [this, key]

/-- C4: the Episode id assigned by the transformer depends only on the
record's `doc_id` field (with the literal `"unknown"` default when absent)
and its ordinal, so two runs — with possibly different wall clocks and
different other fields — give the same id to records with the same
`(doc_id, ordinal)` pair; the id is the concatenation of the stable document
identifier and the ordinal. -/
theorem C4_episode_id_deterministic
    (now now' : Nat → String) (i : Nat) (c c' : Chunk) (m m' : Message)
    (h : transformOne now i c = some m) (h' : transformOne now' i c' = some m')
    (hdoc : (c.source.getD emptySource).doc_id = (c'.source.getD emptySource).doc_id) :
    m.uuid = m'.uuid ∧
      m.uuid = "ragflow_chunk_"
        ++ ((c.source.getD emptySource).doc_id).getD "unknown" ++ "_" ++ toString i := by
  have f := transformOne_uuid now i c m h
  have f' := transformOne_uuid now' i c' m' h'
  have hid : chunkDocId c = chunkDocId c' := by
    unfold chunkDocId; rw [hdoc]
  refine ⟨?_, f⟩
  rw [f, f', hid]

def demoNow : Nat → String := fun _ => "2025-01-01T00:00:00"

def demoChunkA : Chunk :=
  { source := some { content_with_weight := some "hello", content := none
                   , doc_id := some "doc1", docnm_kwd := none } }

def demoChunkB : Chunk :=
  { source := some { content_with_weight := none, content := some "world"
                   , doc_id := some "doc1", docnm_kwd := some "file.pdf" } }

def demoMsgA : Message :=
  { uuid := "ragflow_chunk_doc1_3", content := "hello", role_type := "system"
  , role := "RAGFlow RAPTOR Chunk", name := "Chunk 4"
  , timestamp := "2025-01-01T00:00:00Z", source_description := "RAGFlow Document doc1" }

def demoMsgB : Message :=
  { uuid := "ragflow_chunk_doc1_3", content := "world", role_type := "system"
  , role := "RAGFlow RAPTOR Chunk", name := "Chunk 4"
  , timestamp := "2025-01-01T00:00:00Z", source_description := "RAGFlow Document doc1" }

/-- C4 witness: two concrete records sharing `doc_id = "doc1"` at ordinal 3,
differing in every other field, both get uuid `ragflow_chunk_doc1_3`. -/
theorem C4_episode_id_deterministic_witness :
    demoMsgA.uuid = demoMsgB.uuid ∧
      demoMsgA.uuid = "ragflow_chunk_"
        ++ ((demoChunkA.source.getD emptySource).doc_id).getD "unknown"
        ++ "_" ++ toString 3 :=
  C4_episode_id_deterministic demoNow demoNow 3 demoChunkA demoChunkB
    demoMsgA demoMsgB (by decide) (by decide) (by decide)

/-! ## PaginatedExtractor: `extract_chunks` of ragflow_to_graphiti.py

The Elasticsearch backend is abstracted as the list of pages it serves in
order: the initial `es.search` returns the first page, each `es.scroll` the
next, and an exhausted scroll serves the empty page (also once the list runs
out).  `extract_chunks` returns the collected hits together with the number
of page requests issued (the search plus every scroll call). -/

/-- The `while hits:` scroll loop: `hits` is the page just received, `rest`
the pages the backend would serve to further scroll calls.  Returns the
chunks collected by the loop body and the number of scroll requests made. -/
def extractGo : List Chunk → List (List Chunk) → List Chunk × Nat
  | hits, [] =>
    if hits.isEmpty then ([], 0) else ([], 1)
  | hits, p :: ps =>
    if hits.isEmpty then ([], 0)
    else
      let r := extractGo p ps
      (p ++ r.1, r.2 + 1)

/-- Function `extract_chunks`: initial search (one request) then the scroll loop. -/
def extract_chunks (pages : List (List Chunk)) : List Chunk × Nat :=
  match pages with
  | [] => ([], 1)
  | p :: ps =>
    let r := extractGo p ps
    (p ++ r.1, r.2 + 1)

theorem extractGo_eq (hits : List Chunk) (rest : List (List Chunk)) :
    extractGo hits rest =
      if hits.isEmpty then ([], 0)
      else ((rest.takeWhile (fun p => ¬ p.isEmpty)).flatten,
            (rest.takeWhile (fun p => ¬ p.isEmpty)).length + 1) := by
  induction rest generalizing hits with
  | nil => by_cases h : hits.isEmpty <;> simp [extractGo, h]
  | cons p ps ih =>
    by_cases h : hits.isEmpty
    · simp [extractGo, h]
    · by_cases hp : p.isEmpty
      · have hpnil : p = [] := List.isEmpty_iff.mp hp
        simp [extractGo, h, ih, hp, List.takeWhile_cons, hpnil]
      · have hpne : p ≠ [] := fun e => hp (List.isEmpty_iff.mpr e)
        simp [extractGo, h, ih, hp, List.takeWhile_cons, hpne]

/-- The chunks collected are exactly the pages strictly before the first
empty page, and the requests issued are one per such page plus the single
request that observes the empty page (or the exhausted cursor). -/
theorem extract_chunks_eq (pages : List (List Chunk)) :
    extract_chunks pages =
      ((pages.takeWhile (fun p => ¬ p.isEmpty)).flatten,
       (pages.takeWhile (fun p => ¬ p.isEmpty)).length + 1) := by
  match pages with
  | [] => rfl
  | p :: ps =>
    by_cases hp : p.isEmpty
    · have hpnil : p = [] := List.isEmpty_iff.mp hp
      simp [extract_chunks, extractGo_eq, hp, List.takeWhile_cons, hpnil]
    · have hpne : p ≠ [] := fun e => hp (List.isEmpty_iff.mpr e)
      simp [extract_chunks, extractGo_eq, hp, List.takeWhile_cons, hpne]

theorem replicate100_ne_nil (c : Chunk) : List.replicate 100 c ≠ [] := by
  intro h
  have := congrArg List.length h
  simp at this

/-- C7: a page sequence of sizes `[100, 100, 0]` yields exactly 200 records
with exactly 3 page requests (the search and two scrolls — none after the
empty page is observed), and in general the loop stops at the first empty
page: it collects precisely the pages before it and issues one request per
collected page plus the one that sees the empty page. -/
theorem C7_pagination_exhaustion :
    (∀ c : Chunk,
      (extract_chunks [List.replicate 100 c, List.replicate 100 c, []]).1.length = 200 ∧
      (extract_chunks [List.replicate 100 c, List.replicate 100 c, []]).2 = 3) ∧
    (∀ pages : List (List Chunk),
      extract_chunks pages =
        ((pages.takeWhile (fun p => ¬ p.isEmpty)).flatten,
         (pages.takeWhile (fun p => ¬ p.isEmpty)).length + 1)) := by
  constructor
  · intro c
    rw [extract_chunks_eq]
    have hne := replicate100_ne_nil c
    have he : (List.replicate 100 c).isEmpty = false := by
      cases h : (List.replicate 100 c).isEmpty
      · rfl
      · exact absurd (List.isEmpty_iff.mp h) hne
    have ht : ([List.replicate 100 c, List.replicate 100 c, ([] : List Chunk)].takeWhile
        (fun p => ¬ p.isEmpty))
        = [List.replicate 100 c, List.replicate 100 c] := by
      rw [List.takeWhile_cons, List.takeWhile_cons]
      simp only [he]
      simp
    rw [ht]
    constructor
    · simp only [List.flatten_cons, List.flatten_nil, List.append_nil, List.length_append,
        List.length_replicate]
    · rfl
  · exact extract_chunks_eq

/-! ## Index resolution: `find_ragflow_index` of ragflow_to_graphiti.py

`es.indices.get_alias(index="ragflow_*")` is abstracted as the list of
matching index names in the order the backend returns them (Python dict
insertion order — the code performs no sorting).  An empty result raises,
which `main` catches before calling `extract_chunks`. -/

def find_ragflow_index (indices : List String) : Except String String :=
  match indices with
  | [] => Except.error "No RAGFlow indices found in Elasticsearch"
  | i :: _ => Except.ok i

/-- Function `main` of the script, observed through the number of page requests it
makes: resolution failure exits before `extract_chunks` runs. -/
def mainPageRequests (indices : List String) (pages : List (List Chunk)) : Nat :=
  match find_ragflow_index indices with
  | Except.error _ => 0
  | Except.ok _ => (extract_chunks pages).2

/-- C8 counterexample: with matches returned in the order
`["ragflow_b", "ragflow_a"]`, resolution picks `"ragflow_b"` — not the
alphabetically first match `"ragflow_a"` — refuting the lexical-first
tie-break of the claim. -/
theorem C8_counterexample :
    find_ragflow_index ["ragflow_b", "ragflow_a"] = Except.ok "ragflow_b" ∧
    "ragflow_a" < "ragflow_b" ∧
    find_ragflow_index ["ragflow_b", "ragflow_a"] ≠ Except.ok "ragflow_a" := by
  refine ⟨rfl, String.lt_iff_toList_lt.mpr (by decide), ?_⟩
  intro h
  exact absurd (Except.ok.inj h) (by decide)

/-- C8 amended: zero matches is a fatal error raised before any extraction
(the run makes no page request), and with one or more matches resolution
deterministically selects the first index in the order the backend returned
the matches — not necessarily the alphabetically first one. -/
theorem C8_index_resolution :
    (find_ragflow_index [] = Except.error "No RAGFlow indices found in Elasticsearch" ∧
      ∀ pages : List (List Chunk), mainPageRequests [] pages = 0) ∧
    (∀ (x : String) (xs : List String), find_ragflow_index (x :: xs) = Except.ok x) := by
  exact ⟨⟨rfl, fun _ => rfl⟩, fun _ _ => rfl⟩

/-! ## BatchDeliveryEngine: `send_to_graphiti` of ragflow_to_graphiti.py

`for i in range(0, total, BATCH_SIZE): batch = messages[i:i+BATCH_SIZE]`
partitions the messages into consecutive batches of `BATCH_SIZE = 10`.
Each batch is posted once; the HTTP outcome of the call for batch number
`i` (0-based) is abstracted as `respond i` (`true` = 2xx; a non-2xx status
raises through `raise_for_status` and a transport error raises directly,
both landing in the same `except` clause, which prints and calls
`sys.exit(1)`). -/

/-- Observable outcome of the delivery loop.  `aborted = true` records that
`sys.exit(1)` ran, ending the process before later batches were posted. -/
structure DeliveryResult where
  attempted : Nat
  succeeded : Nat
  failed : Nat
  aborted : Bool
  deriving DecidableEq

/-- Partition into batches of 10 (`BATCH_SIZE`); the fuel is the list
length, ample since every step consumes at least one element. -/
def chunkBatchesAux : Nat → List Message → List (List Message)
  | 0, _ => []
  | _, [] => []
  | fuel + 1, x :: xs => (x :: xs.take 9) :: chunkBatchesAux fuel (xs.drop 9)

def chunkBatches (messages : List Message) : List (List Message) :=
  chunkBatchesAux messages.length messages

/-- The `for` loop of `send_to_graphiti` over the batches, `i` the 0-based
number of the batch about to be posted. -/
def sendLoop (respond : Nat → Bool) : List (List Message) → Nat → DeliveryResult
  | [], _ => { attempted := 0, succeeded := 0, failed := 0, aborted := false }
  | _ :: rest, i =>
    if respond i then
      let r := sendLoop respond rest (i + 1)
      { attempted := r.attempted + 1, succeeded := r.succeeded + 1
      , failed := r.failed, aborted := r.aborted }
    else
      { attempted := 1, succeeded := 0, failed := 1, aborted := true }

def send_to_graphiti (messages : List Message) (respond : Nat → Bool) : DeliveryResult :=
  sendLoop respond (chunkBatches messages) 0

def demoMsgs : List Message := List.replicate 30 demoMsgA

def demoRespond : Nat → Bool := fun i => i != 1

/-- C1 counterexample: 30 messages form 3 batches of 10; the delivery call
for batch 2 (index 1) fails.  The claim predicts 3 batches attempted,
2 succeeded, 1 failed with the run continuing; the code instead exits at the
failed batch, with batch 3 never attempted. -/
theorem C1_counterexample :
    send_to_graphiti demoMsgs demoRespond
        = { attempted := 2, succeeded := 1, failed := 1, aborted := true } ∧
    send_to_graphiti demoMsgs demoRespond
        ≠ { attempted := 3, succeeded := 2, failed := 1, aborted := false } := by
  refine ⟨by decide, by decide⟩

theorem sendLoop_abort (respond : Nat → Bool) (bs : List (List Message)) (i k : Nat)
    (hpre : ∀ j, j < k → respond (i + j) = true) (hfail : respond (i + k) = false)
    (hk : k < bs.length) :
    sendLoop respond bs i = { attempted := k + 1, succeeded := k, failed := 1, aborted := true } := by
  induction bs generalizing i k with
  | nil => exact absurd hk (by simp)
  | cons b rest ih =>
    match k with
    | 0 =>
      have : respond i = false := by simpa using hfail
      simp [sendLoop, this]
    | k + 1 =>
      have h0 : respond i = true := by simpa using hpre 0 (Nat.succ_pos k)
      have hpre' : ∀ j, j < k → respond (i + 1 + j) = true := by
        intro j hj
        have := hpre (j + 1) (Nat.succ_lt_succ hj)
        simpa [Nat.add_assoc, Nat.add_comm 1 j] using this
      have hfail' : respond (i + 1 + k) = false := by
        simpa [Nat.add_assoc, Nat.add_comm 1 k] using hfail
      have hk' : k < rest.length := Nat.lt_of_succ_lt_succ (by simpa using hk)
      simp [sendLoop, h0, ih (i + 1) k hpre' hfail' hk']

/-- C1 amended: on the first non-success response or transport error the
engine does NOT continue — it logs the batch and exits the run: when the
calls for the first `k` batches succeed and the call for batch `k + 1`
fails, exactly `k + 1` batches were attempted (the later batches are never
posted), `k` succeeded and 1 failed, and the run aborted. -/
theorem C1_batch_failure_aborts (messages : List Message) (respond : Nat → Bool) (k : Nat)
    (hpre : ∀ j, j < k → respond j = true) (hfail : respond k = false)
    (hk : k < (chunkBatches messages).length) :
    send_to_graphiti messages respond
      = { attempted := k + 1, succeeded := k, failed := 1, aborted := true } := by
  unfold send_to_graphiti
  exact sendLoop_abort respond (chunkBatches messages) 0 k
    (by intro j hj; simpa using hpre j hj) (by simpa using hfail) hk

/-- C1 witness: the amended theorem applied to the concrete 3-batch run with
batch 2 failing. -/
theorem C1_batch_failure_aborts_witness :
    send_to_graphiti demoMsgs demoRespond
      = { attempted := 2, succeeded := 1, failed := 1, aborted := true } :=
  C1_batch_failure_aborts demoMsgs demoRespond 1
    (by intro j hj; interval_cases j; decide) (by decide) (by decide)

/-! ## SyncOrchestrator: `sync_ragflow_to_kg` of graphrag-api/worker.py

The task resolves an index (the explicit argument, or the first
`ragflow_*` index the backend lists), then pages through the scroll cursor,
posting each non-empty chunk to the KG API.  Per-record delivery failures
(non-200 status or a raised transport exception) are caught inside the loop
and only logged; any exception during connection/resolution/paging reaches
the outer handler and makes the task return `False`.

Inputs: `indices` as listed by the backend, `pages` the successfully fetched
hit pages in order, `paging_ok = false` when search/scroll raised after
serving those pages, and `post n` the outcome of the `n`-th HTTP delivery
call (`true` = status 200). -/

structure KgHit where
  id : String
  source : RagSource
  deriving DecidableEq

/-- Python `source.get('content_with_weight', '') or source.get('content', '')`. -/
def kgContent (s : RagSource) : String :=
  pyOr (s.content_with_weight.getD "") (s.content.getD "")

/-- The `for hit in hits:` body over one page: skip empty content, otherwise
post (call number `k`) and count the successes.  Returns the next call
number and the number of chunks processed in this page. -/
def kgDeliverPage (post : Nat → Bool) : List KgHit → Nat → Nat × Nat
  | [], k => (k, 0)
  | h :: t, k =>
    if kgContent h.source = "" then kgDeliverPage post t k
    else
      let r := kgDeliverPage post t (k + 1)
      (r.1, (if post k then 1 else 0) + r.2)

/-- The `while hits:` loop: deliver the page just fetched, then scroll. -/
def kgScroll (post : Nat → Bool) : List KgHit → List (List KgHit) → Nat → Nat × Nat
  | hits, [], k =>
    if hits.isEmpty then (k, 0) else kgDeliverPage post hits k
  | hits, next :: rs, k =>
    if hits.isEmpty then (k, 0)
    else
      let r1 := kgDeliverPage post hits k
      let r2 := kgScroll post next rs r1.1
      (r2.1, r1.2 + r2.2)

/-- What the task returns plus its observable counters: `result` is the
task's return value, `processed` the final `total_processed`, `posts` the
number of delivery calls issued. -/
structure KgRun where
  result : Bool
  processed : Nat
  posts : Nat
  deriving DecidableEq

def kgRunBody (pages : List (List KgHit)) (paging_ok : Bool) (post : Nat → Bool) : KgRun :=
  match pages with
  | [] => { result := paging_ok, processed := 0, posts := 0 }
  | h :: t =>
    let r := kgScroll post h t 0
    { result := paging_ok, processed := r.2, posts := r.1 }

def sync_ragflow_to_kg (index_name : Option String) (indices : List String)
    (pages : List (List KgHit)) (paging_ok : Bool) (post : Nat → Bool) : KgRun :=
  match index_name, indices with
  | none, [] => { result := false, processed := 0, posts := 0 }
  | none, _ :: _ => kgRunBody pages paging_ok post
  | some _, _ => kgRunBody pages paging_ok post

theorem kgRunBody_result (pages : List (List KgHit)) (paging_ok : Bool) (post : Nat → Bool) :
    (kgRunBody pages paging_ok post).result = paging_ok := by
  cases pages <;> rfl

/-- In `sync_ragflow_to_kg` the flag follows extraction alone: the per-record
delivery failures are caught inside the loop and only logged. -/
theorem sync_ragflow_to_kg_result_iff (index_name : Option String) (indices : List String)
    (pages : List (List KgHit)) (paging_ok : Bool) (post : Nat → Bool) :
    (sync_ragflow_to_kg index_name indices pages paging_ok post).result = true
      ↔ ((index_name.isSome = true ∨ indices ≠ []) ∧ paging_ok = true) := by
  match index_name, indices with
  | none, [] => simp [sync_ragflow_to_kg]
  | none, i :: t => simp [sync_ragflow_to_kg, kgRunBody_result]
  | some n, _ => simp [sync_ragflow_to_kg, kgRunBody_result]

/-! ## The second orchestrator: `sync_ragflow` of the graphiti worker

graph_service/worker.py resolves the first `ragflow_*` index (no explicit
index argument), pages through the scroll cursor with the same collection
loop as `extract_chunks`, and then ingests each non-empty chunk through
`await client.add_episode(...)` inside `process_ingestion`.  That loop sits
in a `try/finally` with NO except clause: an exception from any
`add_episode` call propagates through `asyncio.run` to the task's outer
handler, which returns `False` — unlike the HTTP worker, there is no
per-record recovery.  `ingest k` is the outcome of the `k`-th
`add_episode` call (`false` = the call raised); client and driver
construction are taken as succeeding (configuration, out of scope). -/

/-- Ingestion loop of `process_ingestion`: skip empty-content chunks,
stop with failure as soon as one `add_episode` call raises. -/
def ragflowIngest (ingest : Nat → Bool) : List Chunk → Nat → Bool
  | [], _ => true
  | c :: t, k =>
    if chunkContent c = "" then ragflowIngest ingest t k
    else if ingest k then ragflowIngest ingest t (k + 1)
    else false

/-- Task `sync_ragflow`: `False` on zero indices, `False` when search/scroll
raises, `False` when ingestion raises, `True` otherwise. -/
def sync_ragflow (indices : List String) (pages : List (List Chunk))
    (paging_ok : Bool) (ingest : Nat → Bool) : Bool :=
  match indices with
  | [] => false
  | _ :: _ =>
    if paging_ok then ragflowIngest ingest (extract_chunks pages).1 0
    else false

theorem ragflowIngest_eq_true_iff (ingest : Nat → Bool) :
    ∀ (l : List Chunk) (k : Nat),
      ragflowIngest ingest l k = true ↔
        (∀ j, j < (l.filter (fun c => chunkContent c ≠ "")).length → ingest (k + j) = true) := by
  intro l
  induction l with
  | nil => intro k; simp [ragflowIngest]
  | cons c t ih =>
    intro k
    by_cases hc : chunkContent c = ""
    · have hl : ragflowIngest ingest (c :: t) k = ragflowIngest ingest t k := by
        simp [ragflowIngest, hc]
      have hfc0 : ((c :: t).filter (fun c => chunkContent c ≠ ""))
          = t.filter (fun c => chunkContent c ≠ "") := by
        rw [List.filter_cons]
        simp [hc]
      rw [hl, hfc0]
      exact ih k
    · have hfc : ((c :: t).filter (fun c => chunkContent c ≠ "")).length
          = (t.filter (fun c => chunkContent c ≠ "")).length + 1 := by
        rw [List.filter_cons]
        simp [hc]
      by_cases hk : ingest k = true
      · have hl : ragflowIngest ingest (c :: t) k = ragflowIngest ingest t (k + 1) := by
          simp [ragflowIngest, hc, hk]
        rw [hl, ih (k + 1), hfc]
        constructor
        · intro h j hj
          match j with
          | 0 => simpa using hk
          | j + 1 =>
            have hx := h j (by omega)
            have he : k + 1 + j = k + (j + 1) := by omega
            rw [he] at hx
            exact hx
        · intro h j hj
          have hx := h (j + 1) (by omega)
          have he : k + (j + 1) = k + 1 + j := by omega
          rw [he] at hx
          exact hx
      · have hl : ragflowIngest ingest (c :: t) k = false := by
          simp [ragflowIngest, hc, hk]
        rw [hl, hfc]
        constructor
        · intro h
          exact absurd h (by simp)
        · intro h
          exfalso
          exact hk (by simpa using h 0 (by omega))

/-- C2 counterexample: one run of `sync_ragflow` where index resolution and
cursor paging succeed but the single `add_episode` call raises — the flag is
`false`; with the identical extraction inputs and a succeeding call it is
`true`.  The flag therefore does not follow extraction alone, refuting the
claimed iff for this cited orchestrator. -/
theorem C2_counterexample :
    sync_ragflow ["ragflow_x"] [[demoChunkA]] true (fun _ => false) = false ∧
    sync_ragflow ["ragflow_x"] [[demoChunkA]] true (fun _ => true) = true := by
  exact ⟨by decide, by decide⟩

/-- C2 amended: the two cited orchestrators differ.  In `sync_ragflow_to_kg`
(HTTP delivery, per-record except clause) the flag is `true` iff extraction
— index resolution and cursor paging — did not fatally fail, for every
pattern of delivery outcomes.  In the graphiti worker's `sync_ragflow`,
whose ingestion calls have no per-record handler, the flag is `true` iff
resolution and paging succeeded AND every `add_episode` call for the run's
non-empty chunks succeeded: an ingestion failure flips the run to `false`
despite successful extraction. -/
theorem C2_success_flag_per_worker :
    (∀ (index_name : Option String) (indices : List String) (pages : List (List KgHit))
        (paging_ok : Bool) (post : Nat → Bool),
      (sync_ragflow_to_kg index_name indices pages paging_ok post).result = true
        ↔ ((index_name.isSome = true ∨ indices ≠ []) ∧ paging_ok = true)) ∧
    (∀ (indices : List String) (pages : List (List Chunk))
        (paging_ok : Bool) (ingest : Nat → Bool),
      sync_ragflow indices pages paging_ok ingest = true
        ↔ (indices ≠ [] ∧ paging_ok = true ∧
           ∀ j, j < ((extract_chunks pages).1.filter (fun c => chunkContent c ≠ "")).length →
             ingest j = true)) := by
  constructor
  · exact sync_ragflow_to_kg_result_iff
  · intro indices pages paging_ok ingest
    match indices with
    | [] => simp [sync_ragflow]
    | i :: t =>
      by_cases hp : paging_ok = true
      · have hl : sync_ragflow (i :: t) pages paging_ok ingest
            = ragflowIngest ingest (extract_chunks pages).1 0 := by
          simp [sync_ragflow, hp]
        rw [hl, ragflowIngest_eq_true_iff ingest (extract_chunks pages).1 0]
        simp [hp]
      · have hf : paging_ok = false := by
          cases paging_ok
          · rfl
          · exact absurd rfl hp
        subst hf
        simp [sync_ragflow]

/-- C2 witness: the amended characterization applied to a concrete
`sync_ragflow` run whose single ingestion call succeeds, giving flag `true`. -/
theorem C2_success_flag_per_worker_witness :
    sync_ragflow ["ragflow_x"] [[demoChunkA]] true (fun _ => true) = true :=
  (C2_success_flag_per_worker.2 ["ragflow_x"] [[demoChunkA]] true (fun _ => true)).mpr
    (by refine ⟨by decide, rfl, ?_⟩; decide)

/-! ## OntologySchemaFactory: `ModelFactory` of model_factory.py

Pydantic models are embedded structurally: a model is its docstring plus an
ordered field list; `(Optional[T], Field(default=None, description=...))`
becomes a field spec with `optional := true`.  The Python `_map_type` is
`map_type` here (Lean treats a leading underscore as a hole). -/

namespace ModelFactory

inductive PyType where
  | string
  | float
  | int
  | bool
  deriving DecidableEq

def RESERVED_FIELDS : List String :=
  [ "uuid", "name", "group_id", "labels", "created_at", "summary"
  , "fact", "source_node_uuid", "target_node_uuid", "episodes"
  , "valid_at", "invalid_at", "expired_at" ]

/-- Python `str.lower()`, character by character (`String.toLower` computes
the same string through byte positions, which the kernel cannot evaluate). -/
def pyLower (s : String) : String :=
  String.mk (s.data.map Char.toLower)

/-- Python `_map_type`: `type_map.get(type_str.lower(), str)`. -/
def map_type (type_str : String) : PyType :=
  match pyLower type_str with
  | "string" => PyType.string
  | "float" => PyType.float
  | "int" => PyType.int
  | "bool" => PyType.bool
  | "number" => PyType.float
  | _ => PyType.string

structure AttrDef where
  type : Option String
  description : Option String
  deriving DecidableEq

structure TypeDef where
  summary : Option String
  attributes : List (String × AttrDef)
  deriving DecidableEq

structure FieldSpec where
  type : PyType
  optional : Bool
  description : String
  deriving DecidableEq

/-- A dynamically created Pydantic model: docstring plus field list. -/
structure OntModel where
  doc : String
  fields : List (String × FieldSpec)
  deriving DecidableEq

/-- The inner `for attr_name, attr_def in attributes.items()` loop with its
reserved-field `continue`. -/
def buildFields (attributes : List (String × AttrDef)) : List (String × FieldSpec) :=
  attributes.filterMap (fun p =>
    if p.1 ∈ RESERVED_FIELDS then none
    else some (p.1, { type := map_type ((p.2.type).getD "string")
                    , optional := true
                    , description := (p.2.description).getD "" }))

def buildModel (type_name : String) (d : TypeDef) : OntModel :=
  { doc := d.summary.getD ("Custom " ++ type_name ++ " definition.")
  , fields := buildFields d.attributes }

/-- Function `create_models`: `None`/empty input returns `None`, otherwise one model
per type definition. -/
def create_models (type_definitions : Option (List (String × TypeDef))) :
    Option (List (String × OntModel)) :=
  match type_definitions with
  | none => none
  | some l => if l = [] then none else some (l.map (fun p => (p.1, buildModel p.1 p.2)))

theorem mem_buildFields_iff (attributes : List (String × AttrDef)) (an : String)
    (fs : FieldSpec) :
    (an, fs) ∈ buildFields attributes ↔
      ∃ ad, (an, ad) ∈ attributes ∧ an ∉ RESERVED_FIELDS ∧
        fs = { type := map_type ((ad.type).getD "string")
             , optional := true
             , description := (ad.description).getD "" } := by
  unfold buildFields
  rw [List.mem_filterMap]
  constructor
  · rintro ⟨⟨a, ad⟩, hmem, heq⟩
    dsimp only at heq
    by_cases hr : a ∈ RESERVED_FIELDS
    · simp [hr] at heq
    · rw [if_neg hr] at heq
      injection heq with h
      injection h with h1 h2
      subst h1
      exact ⟨ad, hmem, hr, h2.symm⟩
  · rintro ⟨ad, hmem, hr, heq⟩
    exact ⟨(an, ad), hmem, by simp [hr, heq]⟩

end ModelFactory

/-- C5: for every ontology, every type definition in it, and every attribute
of that definition: if the attribute's name is one of the reserved field
names (exact, case-sensitive match) it is absent from the created model's
fields, and otherwise it is present. -/
theorem C5_reserved_fields_excluded
    (defs : List (String × ModelFactory.TypeDef)) (tname : String)
    (td : ModelFactory.TypeDef) (an : String) (ad : ModelFactory.AttrDef)
    (hmem : (tname, td) ∈ defs) (hattr : (an, ad) ∈ td.attributes) :
    ∃ ms, ModelFactory.create_models (some defs) = some ms ∧
      (tname, ModelFactory.buildModel tname td) ∈ ms ∧
      ((an ∈ ModelFactory.RESERVED_FIELDS →
          ∀ fs, (an, fs) ∉ (ModelFactory.buildModel tname td).fields) ∧
       (an ∉ ModelFactory.RESERVED_FIELDS →
          ∃ fs, (an, fs) ∈ (ModelFactory.buildModel tname td).fields)) := by
  have hne : defs ≠ [] := by
    intro h; rw [h] at hmem; exact absurd hmem (List.not_mem_nil _)
  refine ⟨defs.map (fun p => (p.1, ModelFactory.buildModel p.1 p.2)), ?_, ?_, ?_, ?_⟩
  · unfold ModelFactory.create_models
    simp [hne]
  · exact List.mem_map.mpr ⟨(tname, td), hmem, rfl⟩
  · intro hr fs hin
    rcases (ModelFactory.mem_buildFields_iff td.attributes an fs).mp hin with ⟨_, _, hnr, _⟩
    exact hnr hr
  · intro hnr
    exact ⟨_, (ModelFactory.mem_buildFields_iff td.attributes an _).mpr ⟨ad, hattr, hnr, rfl⟩⟩

def demoTypeDef : ModelFactory.TypeDef :=
  { summary := some "A person."
  , attributes :=
      [ ("uuid", { type := some "string", description := some "identity" })
      , ("age", { type := some "int", description := none }) ] }

def demoDefs : List (String × ModelFactory.TypeDef) := [("Person", demoTypeDef)]

/-- C5 witness: in a concrete ontology, the reserved attribute `uuid` is
dropped from the `Person` model while the attribute `age` would be kept. -/
theorem C5_reserved_fields_excluded_witness :
    ∃ ms, ModelFactory.create_models (some demoDefs) = some ms ∧
      ("Person", ModelFactory.buildModel "Person" demoTypeDef) ∈ ms ∧
      (("uuid" ∈ ModelFactory.RESERVED_FIELDS →
          ∀ fs, ("uuid", fs) ∉ (ModelFactory.buildModel "Person" demoTypeDef).fields) ∧
       ("uuid" ∉ ModelFactory.RESERVED_FIELDS →
          ∃ fs, ("uuid", fs) ∈ (ModelFactory.buildModel "Person" demoTypeDef).fields)) :=
  C5_reserved_fields_excluded demoDefs "Person" demoTypeDef "uuid"
    { type := some "string", description := some "identity" } (by decide) (by decide)

/-- C6: an attribute `type` string the factory does not recognise (none of
string/float/int/bool/number in any letter case) maps to the string type;
every field of every created model is optional; and the factory never fails:
the only inputs without a model dictionary are the `None`/empty ontologies. -/
theorem C6_unknown_type_defaults_to_string :
    (∀ s : String, ModelFactory.pyLower s ∉ ["string", "float", "int", "bool", "number"] →
        ModelFactory.map_type s = ModelFactory.PyType.string) ∧
    (∀ (l : List (String × ModelFactory.TypeDef)) ms tname m an fs,
        ModelFactory.create_models (some l) = some ms → (tname, m) ∈ ms →
        (an, fs) ∈ m.fields → fs.optional = true) ∧
    (∀ defs, ModelFactory.create_models defs = none ↔ (defs = none ∨ defs = some [])) := by
  refine ⟨?_, ?_, ?_⟩
  · intro s h
    unfold ModelFactory.map_type
    split
    · exact absurd (by simp_all) h
    · exact absurd (by simp_all) h
    · exact absurd (by simp_all) h
    · exact absurd (by simp_all) h
    · exact absurd (by simp_all) h
    · rfl
  · intro l ms tname m an fs hcm hm hf
    unfold ModelFactory.create_models at hcm
    dsimp only at hcm
    by_cases hl : l = []
    · simp [hl] at hcm
    · rw [if_neg hl] at hcm
      injection hcm with hms
      subst hms
      rcases List.mem_map.mp hm with ⟨⟨a, td⟩, hmem, heq⟩
      dsimp only at heq
      injection heq with h1 h2
      subst h2
      rcases (ModelFactory.mem_buildFields_iff td.attributes an fs).mp hf with ⟨_, _, _, hfs⟩
      rw [hfs]
  · intro defs
    match defs with
    | none => simp [ModelFactory.create_models]
    | some l =>
      by_cases hl : l = [] <;> simp [ModelFactory.create_models, hl]

def demoModels : List (String × ModelFactory.OntModel) :=
  demoDefs.map (fun p => (p.1, ModelFactory.buildModel p.1 p.2))

/-- C6 witness: the unrecognised type string `"datetime"` becomes a string
field, and the `age` field of the concrete `Person` model is optional. -/
theorem C6_unknown_type_defaults_to_string_witness :
    ModelFactory.map_type "datetime" = ModelFactory.PyType.string ∧
    ∀ fs, ("age", fs) ∈ (ModelFactory.buildModel "Person" demoTypeDef).fields →
      fs.optional = true := by
  refine ⟨C6_unknown_type_defaults_to_string.1 "datetime" (by decide), ?_⟩
  intro fs hf
  exact C6_unknown_type_defaults_to_string.2.1 demoDefs demoModels "Person"
    (ModelFactory.buildModel "Person" demoTypeDef) "age" fs (by decide) (by decide) hf

/-! ## Ingest router: `edge_type_map` parsing in `add_messages` (ingest.py)

Python's `":" in signature`, `signature.split(":")` and `str.strip()` are
embedded at the character-list level.  `source, target = signature.split(":")`
unpacks exactly two parts: with two or more `':'` in the key the split has
three or more parts and the unpacking raises `ValueError`, failing the whole
request — modelled as `Except.error`.  A key without `':'` is only logged
and skipped. -/

/-- Python `signature.split(":")` (all occurrences, no maxsplit). -/
def splitColon : List Char → List (List Char)
  | [] => [[]]
  | c :: cs =>
    if c = ':' then [] :: splitColon cs
    else
      match splitColon cs with
      | [] => [[c]]
      | p :: ps => (c :: p) :: ps

/-- Python `str.strip()`: drop whitespace from both ends. -/
def stripChars (cs : List Char) : List Char :=
  ((cs.dropWhile Char.isWhitespace).reverse.dropWhile Char.isWhitespace).reverse

/-- Specification-side decomposition at the first `':'`. -/
def splitFirstColon : List Char → Option (List Char × List Char)
  | [] => none
  | c :: cs =>
    if c = ':' then some ([], cs)
    else (splitFirstColon cs).map (fun p => (c :: p.1, p.2))

/-- The `for signature, types in request.edge_type_map.items()` loop. -/
def parseEdgeEntries : List (String × List String) →
    Except String (List ((String × String) × List String))
  | [] => Except.ok []
  | (sig, tys) :: rest =>
    if ':' ∈ sig.data then
      match splitColon sig.data with
      | [s, t] =>
        match parseEdgeEntries rest with
        | Except.ok r =>
          Except.ok (((String.mk (stripChars s), String.mk (stripChars t)), tys) :: r)
        | Except.error e => Except.error e
      | _ => Except.error "ValueError: unpacking signature.split failed"
    else
      parseEdgeEntries rest

/-- The `parsed_edge_type_map` construction: stays `None` for a missing or empty
(falsy) `edge_type_map`. -/
def parse_edge_type_map (etm : Option (List (String × List String))) :
    Except String (Option (List ((String × String) × List String))) :=
  match etm with
  | none => Except.ok none
  | some m =>
    if m = [] then Except.ok none
    else
      match parseEdgeEntries m with
      | Except.ok r => Except.ok (some r)
      | Except.error e => Except.error e

theorem splitColon_of_no_colon (cs : List Char) (h : ':' ∉ cs) :
    splitColon cs = [cs] ∧ splitFirstColon cs = none := by
  induction cs with
  | nil => exact ⟨rfl, rfl⟩
  | cons c t ih =>
    have hc : c ≠ ':' := fun e => h (by rw [e]; exact List.mem_cons_self _ _)
    have ht : ':' ∉ t := fun e => h (List.mem_cons_of_mem _ e)
    rcases ih ht with ⟨h1, h2⟩
    constructor
    · simp only [splitColon, if_neg hc, h1]
    · simp only [splitFirstColon, if_neg hc, h2, Option.map_none']

theorem splitColon_of_one_colon (cs : List Char) (h : cs.count ':' = 1) :
    ∃ a b, splitColon cs = [a, b] ∧ splitFirstColon cs = some (a, b) := by
  induction cs with
  | nil => simp [List.count_nil] at h
  | cons c t ih =>
    by_cases hc : c = ':'
    · subst hc
      have ht : t.count ':' = 0 := by
        have := h
        rw [List.count_cons_self] at this
        omega
      have hnot : ':' ∉ t := List.count_eq_zero.mp ht
      rcases splitColon_of_no_colon t hnot with ⟨h1, h2⟩
      exact ⟨[], t, by simp [splitColon, h1], by simp [splitFirstColon]⟩
    · have ht : t.count ':' = 1 := by
        rw [List.count_cons_of_ne (fun e => hc e.symm)] at h
        exact h
      rcases ih ht with ⟨a, b, h1, h2⟩
      refine ⟨c :: a, b, ?_, ?_⟩
      · simp only [splitColon, if_neg hc, h1]
      · simp only [splitFirstColon, if_neg hc, h2, Option.map_some']

theorem parseEdgeEntries_eq (m : List (String × List String))
    (h : ∀ p ∈ m, p.1.data.count ':' ≤ 1) :
    parseEdgeEntries m = Except.ok (m.filterMap (fun p =>
      (splitFirstColon p.1.data).map (fun q =>
        ((String.mk (stripChars q.1), String.mk (stripChars q.2)), p.2)))) := by
  induction m with
  | nil => rfl
  | cons e rest ih =>
    obtain ⟨sig, tys⟩ := e
    have hhead : sig.data.count ':' ≤ 1 := h _ (List.mem_cons_self _ _)
    have ihr := ih (fun p hp => h p (List.mem_cons_of_mem _ hp))
    by_cases hin : ':' ∈ sig.data
    · have hcount : sig.data.count ':' = 1 := by
        have hpos : 0 < sig.data.count ':' := List.count_pos_iff.mpr hin
        omega
      rcases splitColon_of_one_colon _ hcount with ⟨a, b, h1, h2⟩
      simp only [parseEdgeEntries, if_pos hin, h1, ihr, List.filterMap_cons, h2,
        Option.map_some']
    · rcases splitColon_of_no_colon _ hin with ⟨h1, h2⟩
      simp only [parseEdgeEntries, if_neg hin, ihr, List.filterMap_cons, h2,
        Option.map_none']

/-- C10: when every `edge_type_map` key contains at most one `':'`, parsing
never fails the request: the parsed map (absent only for a missing or empty
input map) keys each one-colon signature by its whitespace-stripped source
and target halves, and drops each colon-less signature, processing the rest. -/
theorem C10_edge_type_map_lenient_parsing (m : List (String × List String))
    (h : ∀ p ∈ m, p.1.data.count ':' ≤ 1) :
    parse_edge_type_map (some m) = Except.ok
      (if m = [] then none
       else some (m.filterMap (fun p =>
         (splitFirstColon p.1.data).map (fun q =>
           ((String.mk (stripChars q.1), String.mk (stripChars q.2)), p.2))))) := by
  by_cases hm : m = []
  · simp [parse_edge_type_map, hm]
  · simp only [parse_edge_type_map, if_neg hm, parseEdgeEntries_eq m h]

def demoEtm : List (String × List String) := [("A : B", ["REL"]), ("noColon", ["X"])]

/-- C10 witness: the key `"A : B"` becomes the stripped pair `("A", "B")`,
the colon-less key `"noColon"` is dropped, and the request succeeds. -/
theorem C10_edge_type_map_lenient_parsing_witness :
    parse_edge_type_map (some demoEtm) = Except.ok (some [(("A", "B"), ["REL"])]) := by
  rw [C10_edge_type_map_lenient_parsing demoEtm (by decide)]
  rfl

/-! ## C9: uniqueness of Episode ids within one run

`uuid = "ragflow_chunk_" ++ doc_id ++ "_" ++ str(i)` embeds the enumerate
ordinal after the LAST underscore of the string (the decimal digits contain
no underscore), so distinct ordinals give distinct uuids for any `doc_id`
values — including ids that themselves contain underscores and digits. -/

theorem digitChar_ne_underscore (n : Nat) : Nat.digitChar n ≠ '_' := by
  by_cases h : n < 16
  · interval_cases n <;> decide
  · unfold Nat.digitChar
    have h0 : ¬ n = 0 := by omega
    have h1 : ¬ n = 1 := by omega
    have h2 : ¬ n = 2 := by omega
    have h3 : ¬ n = 3 := by omega
    have h4 : ¬ n = 4 := by omega
    have h5 : ¬ n = 5 := by omega
    have h6 : ¬ n = 6 := by omega
    have h7 : ¬ n = 7 := by omega
    have h8 : ¬ n = 8 := by omega
    have h9 : ¬ n = 9 := by omega
    have h10 : ¬ n = 10 := by omega
    have h11 : ¬ n = 11 := by omega
    have h12 : ¬ n = 12 := by omega
    have h13 : ¬ n = 13 := by omega
    have h14 : ¬ n = 14 := by omega
    have h15 : ¬ n = 15 := by omega
    simp only [h0, h1, h2, h3, h4, h5, h6, h7, h8, h9, h10, h11, h12, h13, h14, h15,
      if_false]
    decide

theorem toDigitsCore_chars (f : Nat) : ∀ (n : Nat) (ds : List Char) (c : Char),
    c ∈ Nat.toDigitsCore 10 f n ds → c ∈ ds ∨ ∃ m, c = Nat.digitChar m := by
  induction f with
  | zero => intro n ds c hc; exact Or.inl hc
  | succ f ih =>
    intro n ds c hc
    simp only [Nat.toDigitsCore] at hc
    by_cases h : n / 10 = 0
    · rw [if_pos h] at hc
      rcases List.mem_cons.mp hc with h1 | h1
      · exact Or.inr ⟨n % 10, h1⟩
      · exact Or.inl h1
    · rw [if_neg h] at hc
      rcases ih (n / 10) (Nat.digitChar (n % 10) :: ds) c hc with h1 | h1
      · rcases List.mem_cons.mp h1 with h2 | h2
        · exact Or.inr ⟨n % 10, h2⟩
        · exact Or.inl h2
      · exact Or.inr h1

theorem repr_data_no_underscore (n : Nat) : '_' ∉ (Nat.repr n).data := by
  intro hmem
  have he : (Nat.repr n).data = Nat.toDigitsCore 10 (n + 1) n [] := rfl
  rw [he] at hmem
  rcases toDigitsCore_chars (n + 1) n [] '_' hmem with h | ⟨m, hm⟩
  · exact absurd h (List.not_mem_nil _)
  · exact digitChar_ne_underscore m hm.symm

/-- Read a digit string back as a number (decimal). -/
def readNatChars (cs : List Char) : Nat :=
  cs.foldl (fun acc c => 10 * acc + (c.toNat - 48)) 0

theorem digitChar_val (m : Nat) (h : m < 10) : (Nat.digitChar m).toNat - 48 = m := by
  interval_cases m <;> decide

theorem readNatChars_append_digit (xs : List Char) (c : Char) :
    readNatChars (xs ++ [c]) = 10 * readNatChars xs + (c.toNat - 48) := by
  unfold readNatChars
  rw [List.foldl_append]
  rfl

theorem toDigitsCore_acc (f : Nat) : ∀ (n : Nat) (ds : List Char),
    Nat.toDigitsCore 10 f n ds = Nat.toDigitsCore 10 f n [] ++ ds := by
  induction f with
  | zero => intro n ds; rfl
  | succ f ih =>
    intro n ds
    simp only [Nat.toDigitsCore]
    by_cases h : n / 10 = 0
    · rw [if_pos h, if_pos h]
      rfl
    · rw [if_neg h, if_neg h]
      rw [ih (n / 10) (Nat.digitChar (n % 10) :: ds), ih (n / 10) [Nat.digitChar (n % 10)]]
      rw [List.append_assoc, List.singleton_append]

theorem toDigitsCore_readNat (f : Nat) : ∀ n : Nat, n < f →
    readNatChars (Nat.toDigitsCore 10 f n []) = n := by
  induction f with
  | zero => intro n h; omega
  | succ f ih =>
    intro n h
    simp only [Nat.toDigitsCore]
    by_cases h0 : n / 10 = 0
    · rw [if_pos h0]
      have hv : readNatChars [Nat.digitChar (n % 10)] = (Nat.digitChar (n % 10)).toNat - 48 := by
        simp [readNatChars, List.foldl]
      rw [hv, digitChar_val (n % 10) (Nat.mod_lt _ (by norm_num))]
      omega
    · rw [if_neg h0]
      rw [toDigitsCore_acc f (n / 10) [Nat.digitChar (n % 10)]]
      rw [readNatChars_append_digit]
      rw [ih (n / 10) (by omega)]
      rw [digitChar_val (n % 10) (Nat.mod_lt _ (by norm_num))]
      omega

theorem repr_data_inj (a b : Nat) (h : (Nat.repr a).data = (Nat.repr b).data) : a = b := by
  have ha : readNatChars (Nat.repr a).data = a :=
    toDigitsCore_readNat (a + 1) a (Nat.lt_succ_self a)
  have hb : readNatChars (Nat.repr b).data = b :=
    toDigitsCore_readNat (b + 1) b (Nat.lt_succ_self b)
  rw [h] at ha
  rw [hb] at ha
  exact ha.symm

theorem append_cons_inj_left {α : Type} (a : α) :
    ∀ (l1 l2 r1 r2 : List α), a ∉ l1 → a ∉ l2 →
      l1 ++ a :: r1 = l2 ++ a :: r2 → l1 = l2 ∧ r1 = r2 := by
  intro l1
  induction l1 with
  | nil =>
    intro l2 r1 r2 _ h2 he
    match l2 with
    | [] =>
      refine ⟨rfl, ?_⟩
      simpa using he
    | c :: t =>
      exfalso
      have hc : a = c := by
        have := congrArg (fun l => l.head?) he
        simpa using this
      exact h2 (hc ▸ List.mem_cons_self c t)
  | cons c t ih =>
    intro l2 r1 r2 h1 h2 he
    match l2 with
    | [] =>
      exfalso
      have hc : c = a := by
        have := congrArg (fun l => l.head?) he
        simpa using this
      exact h1 (hc ▸ List.mem_cons_self c t)
    | c' :: t' =>
      have hc : c = c' := by
        have := congrArg (fun l => l.head?) he
        simpa using this
      have htail : t ++ a :: r1 = t' ++ a :: r2 := by
        have := congrArg List.tail he
        simpa using this
      have h1t : a ∉ t := fun hm => h1 (List.mem_cons_of_mem _ hm)
      have h2t : a ∉ t' := fun hm => h2 (List.mem_cons_of_mem _ hm)
      rcases ih t' r1 r2 h1t h2t htail with ⟨e1, e2⟩
      exact ⟨by rw [hc, e1], e2⟩

theorem append_cons_inj_of_no_sep_suffix {α : Type} (a : α) (l1 l2 r1 r2 : List α)
    (h1 : a ∉ r1) (h2 : a ∉ r2) (he : l1 ++ a :: r1 = l2 ++ a :: r2) :
    l1 = l2 ∧ r1 = r2 := by
  have her := congrArg List.reverse he
  simp only [List.reverse_append, List.reverse_cons, List.append_assoc,
    List.singleton_append] at her
  have h1r : a ∉ r1.reverse := by simpa using h1
  have h2r : a ∉ r2.reverse := by simpa using h2
  rcases append_cons_inj_left a r1.reverse r2.reverse l1.reverse l2.reverse h1r h2r her
    with ⟨e1, e2⟩
  exact ⟨List.reverse_injective e2, List.reverse_injective e1⟩

theorem uuid_ordinal_inj (d d' : String) (i j : Nat)
    (h : "ragflow_chunk_" ++ d ++ "_" ++ toString i
        = "ragflow_chunk_" ++ d' ++ "_" ++ toString j) : i = j := by
  have hd := congrArg String.data h
  simp only [String.data_append, List.append_assoc] at hd
  have hd2 := List.append_cancel_left hd
  rw [List.singleton_append, List.singleton_append] at hd2
  rcases append_cons_inj_of_no_sep_suffix '_' d.data d'.data
      (toString i).data (toString j).data
      (repr_data_no_underscore i) (repr_data_no_underscore j) hd2 with ⟨_, hrep⟩
  exact repr_data_inj i j hrep

/-- C9: within a single run the ids of all produced Episodes are pairwise
distinct, for every combination of `doc_id` strings (underscores and digits
included) and ordinals: the decimal ordinal after the uuid's last underscore
differs between any two retained records. -/
theorem C9_episode_ids_pairwise_distinct (now : Nat → String) (chunks : List Chunk) :
    ((transform_to_messages now chunks).map Message.uuid).Pairwise (fun a b => a ≠ b) := by
  rw [List.pairwise_map]
  unfold transform_to_messages
  have henum : chunks.enum.Pairwise (fun p q : Nat × Chunk => p.1 ≠ q.1) := by
    have h1 : (chunks.enum.map Prod.fst).Pairwise (fun a b : Nat => a ≠ b) :=
      List.nodup_enum_map_fst chunks
    exact List.pairwise_map.mp h1
  refine List.Pairwise.filterMap _ ?_ henum
  intro p q hpq m hm m' hm'
  have e1 : transformOne now p.1 p.2 = some m := hm
  have e2 : transformOne now q.1 q.2 = some m' := hm'
  have u1 := transformOne_uuid now p.1 p.2 m e1
  have u2 := transformOne_uuid now q.1 q.2 m' e2
  intro he
  apply hpq
  apply uuid_ordinal_inj (chunkDocId p.2) (chunkDocId q.2) p.1 q.1
  rw [← u1, ← u2]
  exact he
